import Mathlib

/-!
Verification of the falling-block game logic in `src/main.rs`.

The game state consists of a single active cell and a list of frozen
("normal") cells, each holding an integer grid `Position`.  The three
systems that touch this state — `falling_movement`, `control_movement`
and `place_active_blocks` — are embedded below as pure functions on an
explicit `GameState`, and the render-side coordinate transform
(`convert` inside `position_translation`) is embedded over `ℚ`.
The grid constants come from the source: `TOTAL_WIDTH = 8`,
`TOTAL_HEIGHT = 16`.  Positions are `i32` in the source; every mutation
is guarded towards zero or bounded by the small grid constants, so
plain `Int` is an exact model (no overflow is reachable on any input
considered here).
-/

/-- Grid width constant (`TOTAL_WIDTH: u32 = 8`, used as `i32`). -/
def TOTAL_WIDTH : Int := 8

/-- Grid height constant (`TOTAL_HEIGHT: u32 = 16`, used as `i32`). -/
def TOTAL_HEIGHT : Int := 16

/-- The `Position` component: integer grid coordinates. -/
structure Position where
  x : Int
  y : Int
deriving DecidableEq, Repr

/-- The keyboard state read by `control_movement`: whether each of the
three directional keys is currently pressed. -/
structure Keys where
  left : Bool
  right : Bool
  down : Bool
deriving DecidableEq, Repr

/-- The entity store: the single active block's position and the
positions of all frozen (normal) blocks, in spawn order. -/
structure GameState where
  active : Position
  frozen : List Position
deriving DecidableEq, Repr

/-- `spawn_active_block` inserts `Position { x: 5, y: TOTAL_HEIGHT - 1 }`
on the active block. -/
def spawn_active_block : Position :=
  { x := 5, y := TOTAL_HEIGHT - 1 }

/-- The state after the startup stage: one active block at the spawn
position, no frozen blocks. -/
def initState : GameState :=
  { active := spawn_active_block, frozen := [] }

/-- `falling_movement`: if `position.y > 0`, decrement `y`. -/
def falling_movement (p : Position) : Position :=
  if p.y > 0 then { p with y := p.y - 1 } else p

/-- `control_movement`: a chain of `if / else if` branches — left
(guarded by `x > 0`), else right (guarded by `x < TOTAL_WIDTH - 1`),
else down (guarded by `y > 0`). -/
def control_movement (keys : Keys) (p : Position) : Position :=
  if keys.left ∧ p.x > 0 then { p with x := p.x - 1 }
  else if keys.right ∧ p.x < TOTAL_WIDTH - 1 then { p with x := p.x + 1 }
  else if keys.down ∧ p.y > 0 then { p with y := p.y - 1 }
  else p

/-- `place_active_blocks`: read the active position `(act_x, act_y)`;
if `act_y == 0`, spawn a normal block there and mark placed; otherwise
scan the normal blocks and spawn a normal block at the active position
if one sits directly below (`act_x == np.x && act_y == np.y + 1`);
when placed, reset the active block's `y` to `TOTAL_HEIGHT - 1`
(the `x` field is left as it is). -/
def place_active_blocks (s : GameState) : GameState :=
  let act := s.active
  if act.y = 0 then
    { active := { act with y := TOTAL_HEIGHT - 1 },
      frozen := s.frozen ++ [act] }
  else if s.frozen.any (fun np => act.x == np.x && act.y == np.y + 1) then
    { active := { act with y := TOTAL_HEIGHT - 1 },
      frozen := s.frozen ++ [act] }
  else
    s

/-- One scheduling event of the host loop: a fall tick, a control tick
with a given keyboard state, or a placement check. -/
inductive Step where
  | fall : Step
  | control : Keys → Step
  | place : Step
deriving DecidableEq, Repr

/-- Effect of one scheduling event on the game state.  Fall and control
ticks mutate only the active block's position; the placement check is
`place_active_blocks`. -/
def applyStep (st : Step) (s : GameState) : GameState :=
  match st with
  | Step.fall => { s with active := falling_movement s.active }
  | Step.control k => { s with active := control_movement k s.active }
  | Step.place => place_active_blocks s

/-- Run a sequence of scheduling events from a state. -/
def runSteps (s : GameState) (l : List Step) : GameState :=
  l.foldl (fun acc st => applyStep st acc) s

/-- A state is reachable when some sequence of fall ticks, control
ticks and placement checks produces it from the startup state. -/
def Reachable (s : GameState) : Prop :=
  ∃ l : List Step, runSteps initState l = s

/-- The bounds invariant claimed for the active cell. -/
def inBounds (p : Position) : Prop :=
  0 ≤ p.x ∧ p.x < TOTAL_WIDTH ∧ 0 ≤ p.y ∧ p.y < TOTAL_HEIGHT

/-- The `convert` helper of `position_translation`, over exact
rationals: `tile_size = bound_window / bound_game` and the result is
`pos / bound_game * bound_window - bound_window / 2 + tile_size / 2`. -/
def convert (pos bound_window bound_game : ℚ) : ℚ :=
  let tile_size := bound_window / bound_game
  pos / bound_game * bound_window - bound_window / 2 + tile_size / 2

/-- `position_translation` maps a grid position to its pixel centre,
converting `x` against the window width and grid width and `y` against
the window height and grid height. -/
def position_translation (window_width window_height : ℚ) (p : Position) : ℚ × ℚ :=
  (convert (p.x : ℚ) window_width (TOTAL_WIDTH : ℚ),
   convert (p.y : ℚ) window_height (TOTAL_HEIGHT : ℚ))

-- Basic unfolding lemmas

theorem runSteps_nil (s : GameState) : runSteps s [] = s := rfl

theorem runSteps_cons (s : GameState) (st : Step) (l : List Step) :
    runSteps s (st :: l) = runSteps (applyStep st s) l := rfl

/-- Claim C4: one fall tick takes the active position `(x, k)` to
`(x, k - 1)` when `k > 0`, leaves it unchanged when `k = 0`, and never
changes `x`. -/
theorem falling_movement_spec (x k : Int) :
    (k > 0 → falling_movement ⟨x, k⟩ = ⟨x, k - 1⟩) ∧
    (k = 0 → falling_movement ⟨x, k⟩ = ⟨x, k⟩) ∧
    (falling_movement ⟨x, k⟩).x = x := by
  refine ⟨fun hk => ?_, fun hk => ?_, ?_⟩
  · simp [falling_movement, hk]
  · simp [falling_movement, hk]
  · unfold falling_movement
    split <;> rfl

/-- Witness for C4: at `(3, 5)` a fall tick yields `(3, 4)`, and at
`(3, 0)` it is a no-op. -/
theorem falling_movement_spec_witness :
    ((5 : Int) > 0 ∧ falling_movement ⟨3, 5⟩ = ⟨3, 4⟩) ∧
    ((0 : Int) = 0 ∧ falling_movement ⟨3, 0⟩ = ⟨3, 0⟩) :=
  ⟨⟨by decide, (falling_movement_spec 3 5).1 (by decide)⟩,
   ⟨rfl, (falling_movement_spec 3 0).2.1 rfl⟩⟩

/-- Claim C1, amended: a placement check on an active cell at `(x, 0)`
spawns exactly one frozen cell at `(x, 0)` and respawns the active cell
at `(x, TOTAL_HEIGHT - 1)` — the `y` field is reset to the top row but
the `x` column is preserved, not reset to the startup spawn column. -/
theorem place_on_floor (x : Int) (fs : List Position) :
    place_active_blocks ⟨⟨x, 0⟩, fs⟩ =
      ⟨⟨x, TOTAL_HEIGHT - 1⟩, fs ++ [⟨x, 0⟩]⟩ := by
  simp [place_active_blocks]

/-- Counterexample to claim C1 as stated: with the active cell at
`(0, 0)`, the placement check does spawn one frozen cell at `(0, 0)`,
but the respawned active cell sits at `(0, TOTAL_HEIGHT - 1)`, which is
not the startup spawn position `(5, TOTAL_HEIGHT - 1)`. -/
theorem place_on_floor_keeps_column :
    place_active_blocks ⟨⟨0, 0⟩, []⟩ = ⟨⟨0, TOTAL_HEIGHT - 1⟩, [⟨0, 0⟩]⟩ ∧
    (place_active_blocks ⟨⟨0, 0⟩, []⟩).active ≠ spawn_active_block := by
  decide

/-- Claim C3: with the active cell at `(x, y)`, `y > 0`: if some frozen
cell sits at `(x, y - 1)` the placement check spawns exactly one frozen
cell at `(x, y)` and respawns the active cell (resetting its `y` to the
top row); if no frozen cell sits at `(x, y - 1)` the placement check
changes nothing. -/
theorem place_on_stack_spec (x y : Int) (fs : List Position) (hy : y > 0) :
    ((∃ p ∈ fs, p.x = x ∧ p.y = y - 1) →
      place_active_blocks ⟨⟨x, y⟩, fs⟩ =
        ⟨⟨x, TOTAL_HEIGHT - 1⟩, fs ++ [⟨x, y⟩]⟩) ∧
    ((¬ ∃ p ∈ fs, p.x = x ∧ p.y = y - 1) →
      place_active_blocks ⟨⟨x, y⟩, fs⟩ = ⟨⟨x, y⟩, fs⟩) := by
  have h0 : ¬ (y = 0) := by omega
  have hiff : (fs.any (fun np => x == np.x && y == np.y + 1) = true)
      ↔ (∃ p ∈ fs, p.x = x ∧ p.y = y - 1) := by
    simp only [List.any_eq_true, Bool.and_eq_true, beq_iff_eq]
    constructor
    · rintro ⟨p, hp, h1, h2⟩
      exact ⟨p, hp, h1.symm, by omega⟩
    · rintro ⟨p, hp, h1, h2⟩
      exact ⟨p, hp, h1.symm, by omega⟩
  constructor
  · intro hex
    simp [place_active_blocks, h0, hiff.mpr hex]
  · intro hnex
    have hfalse : fs.any (fun np => x == np.x && y == np.y + 1) = false := by
      rw [← Bool.not_eq_true]
      intro hc
      exact hnex (hiff.mp hc)
    simp [place_active_blocks, h0, hfalse]

/-- Witness for C3, matching the spec's freeze-on-stack example: frozen
cell at `(3, 2)` and active cell at `(3, 3)` places; active at `(4, 3)`
above nothing does not. -/
theorem place_on_stack_spec_witness :
    ((3 : Int) > 0 ∧
      place_active_blocks ⟨⟨3, 3⟩, [⟨3, 2⟩]⟩ =
        ⟨⟨3, TOTAL_HEIGHT - 1⟩, [⟨3, 2⟩, ⟨3, 3⟩]⟩) ∧
    place_active_blocks ⟨⟨4, 3⟩, [⟨3, 2⟩]⟩ = ⟨⟨4, 3⟩, [⟨3, 2⟩]⟩ :=
  ⟨⟨by decide,
    (place_on_stack_spec 3 3 [⟨3, 2⟩] (by decide)).1
      ⟨⟨3, 2⟩, by simp, rfl, by decide⟩⟩,
   (place_on_stack_spec 4 3 [⟨3, 2⟩] (by decide)).2 (by decide)⟩

/-- Claim C8: no scheduling event moves an existing frozen cell: after
any fall tick, control tick or placement check, the old frozen list is
an unchanged initial segment of the new one (placement can only append
a newly spawned cell). -/
theorem frozen_cells_immutable (st : Step) (s : GameState) :
    ∃ t : List Position, (applyStep st s).frozen = s.frozen ++ t := by
  cases st with
  | fall => exact ⟨[], by simp [applyStep]⟩
  | control k => exact ⟨[], by simp [applyStep]⟩
  | place =>
      simp only [applyStep, place_active_blocks]
      split_ifs
      · exact ⟨[s.active], rfl⟩
      · exact ⟨[s.active], rfl⟩
      · exact ⟨[], by simp⟩

/-- Each scheduling event keeps the active cell inside the grid. -/
theorem inBounds_applyStep (st : Step) (s : GameState)
    (h : inBounds s.active) : inBounds (applyStep st s).active := by
  obtain ⟨hx0, hxW, hy0, hyH⟩ := h
  simp only [TOTAL_WIDTH] at hxW
  simp only [TOTAL_HEIGHT] at hyH
  cases st with
  | fall =>
      simp only [applyStep, falling_movement, inBounds, TOTAL_WIDTH, TOTAL_HEIGHT]
      split_ifs with h1 <;> (try simp) <;> omega
  | control k =>
      simp only [applyStep, control_movement, inBounds, TOTAL_WIDTH, TOTAL_HEIGHT]
      split_ifs with h1 h2 h3 <;> (try simp) <;> omega
  | place =>
      simp only [applyStep, place_active_blocks, inBounds, TOTAL_WIDTH, TOTAL_HEIGHT]
      split_ifs with h1 h2 <;> (try simp) <;> omega

/-- Bounds are preserved along any run of scheduling events. -/
theorem inBounds_runSteps (l : List Step) :
    ∀ s : GameState, inBounds s.active → inBounds (runSteps s l).active := by
  induction l with
  | nil => intro s h; exact h
  | cons st l ih =>
      intro s h
      rw [runSteps_cons]
      exact ih _ (inBounds_applyStep st s h)

/-- Claim C2: in every state reachable from the startup state by any
sequence of fall ticks, control ticks and placement checks, the active
cell's `x` lies in `[0, TOTAL_WIDTH)` and its `y` in `[0, TOTAL_HEIGHT)`. -/
theorem active_in_bounds (l : List Step) :
    inBounds (runSteps initState l).active := by
  apply inBounds_runSteps
  unfold inBounds initState spawn_active_block TOTAL_WIDTH TOTAL_HEIGHT
  refine ⟨?_, ?_, ?_, ?_⟩ <;> decide

/-- Claim C5: the control tick applies at most one move, chosen by the
priority chain left, then right, then down, each guarded by its bound;
in particular with only the left key influencing `x` at `x = 0` the
column stays `0`, and with only the right key influencing `x` at
`x = TOTAL_WIDTH - 1` the column stays `TOTAL_WIDTH - 1`. -/
theorem control_movement_spec (k : Keys) (x y : Int) :
    (control_movement k ⟨x, y⟩ = ⟨x, y⟩ ∨
     control_movement k ⟨x, y⟩ = ⟨x - 1, y⟩ ∨
     control_movement k ⟨x, y⟩ = ⟨x + 1, y⟩ ∨
     control_movement k ⟨x, y⟩ = ⟨x, y - 1⟩) ∧
    (k.left = true → x > 0 → control_movement k ⟨x, y⟩ = ⟨x - 1, y⟩) ∧
    (¬ (k.left = true ∧ x > 0) → k.right = true → x < TOTAL_WIDTH - 1 →
      control_movement k ⟨x, y⟩ = ⟨x + 1, y⟩) ∧
    (¬ (k.left = true ∧ x > 0) → ¬ (k.right = true ∧ x < TOTAL_WIDTH - 1) →
      k.down = true → y > 0 → control_movement k ⟨x, y⟩ = ⟨x, y - 1⟩) ∧
    (¬ (k.left = true ∧ x > 0) → ¬ (k.right = true ∧ x < TOTAL_WIDTH - 1) →
      ¬ (k.down = true ∧ y > 0) → control_movement k ⟨x, y⟩ = ⟨x, y⟩) ∧
    (x = 0 → k.right = false → (control_movement k ⟨x, y⟩).x = 0) ∧
    (x = TOTAL_WIDTH - 1 → k.left = false →
      (control_movement k ⟨x, y⟩).x = TOTAL_WIDTH - 1) := by
  unfold control_movement TOTAL_WIDTH
  split_ifs with h1 h2 h3 <;>
    refine ⟨?_, ?_, ?_, ?_, ?_, ?_, ?_⟩ <;>
    simp_all <;> omega

/-- Witness for C5: with all three keys held at `(3, 5)` the left move
wins; with only left held at `(0, 4)` the column stays `0`; with only
right held at `(7, 4)` the column stays `7`. -/
theorem control_movement_spec_witness :
    ((Keys.mk true true true).left = true ∧ (3 : Int) > 0 ∧
      control_movement ⟨true, true, true⟩ ⟨3, 5⟩ = ⟨2, 5⟩) ∧
    (control_movement ⟨true, false, false⟩ ⟨0, 4⟩).x = 0 ∧
    (control_movement ⟨false, true, false⟩ ⟨7, 4⟩).x = TOTAL_WIDTH - 1 :=
  ⟨⟨rfl, by decide, (control_movement_spec ⟨true, true, true⟩ 3 5).2.1 rfl (by decide)⟩,
   (control_movement_spec ⟨true, false, false⟩ 0 4).2.2.2.2.2.1 rfl rfl,
   (control_movement_spec ⟨false, true, false⟩ 7 4).2.2.2.2.2.2 (by decide) rfl⟩

/-- Trace reaching a state in which the active cell stands on top of a
frozen cell's position: drop once, then hold the down key. -/
def overlapTrace : List Step :=
  List.replicate 15 Step.fall ++ [Step.place] ++
    List.replicate 15 (Step.control ⟨false, false, true⟩)

/-- Claim C7: a control tick with only the down key pressed moves the
active cell from `(x, y)` with `y > 0` to `(x, y - 1)` in any state,
whatever the frozen cells are — the control logic never reads them —
and consequently a reachable state exists in which the active cell
occupies the same position as a frozen cell. -/
theorem control_down_ignores_frozen :
    (∀ s : GameState, ∀ x y : Int, s.active = ⟨x, y⟩ → y > 0 →
      applyStep (Step.control ⟨false, false, true⟩) s =
        { s with active := ⟨x, y - 1⟩ }) ∧
    (∃ s : GameState, Reachable s ∧ s.active ∈ s.frozen) := by
  constructor
  · intro s x y hact hy
    simp [applyStep, control_movement, hact, hy]
  · exact ⟨runSteps initState overlapTrace, ⟨overlapTrace, rfl⟩, by decide⟩

/-- Witness for C7: with a frozen cell at `(5, 0)` and the active cell
at `(5, 1)`, a down-only control tick moves the active cell onto the
frozen cell. -/
theorem control_down_ignores_frozen_witness :
    applyStep (Step.control ⟨false, false, true⟩) ⟨⟨5, 1⟩, [⟨5, 0⟩]⟩ =
      ⟨⟨5, 0⟩, [⟨5, 0⟩]⟩ :=
  control_down_ignores_frozen.1 ⟨⟨5, 1⟩, [⟨5, 0⟩]⟩ 5 1 rfl (by decide)

/-- A run is safe when every placement check in it fires from a state
in which the active cell does not already share a frozen cell's
position.  `place_active_blocks` performs no such check itself. -/
def safeRun : GameState → List Step → Bool
  | _, [] => true
  | s, st :: l =>
      (match st with
       | Step.place => ! decide (s.active ∈ s.frozen)
       | _ => true) && safeRun (applyStep st s) l

/-- A placement check from a state whose active cell does not overlap
any frozen cell preserves pairwise-distinct frozen positions. -/
theorem nodup_frozen_place (s : GameState) (hs : s.frozen.Nodup)
    (hmem : s.active ∉ s.frozen) : (place_active_blocks s).frozen.Nodup := by
  simp only [place_active_blocks]
  split_ifs
  · rw [List.nodup_append]
    exact ⟨hs, List.nodup_singleton _, by simpa using hmem⟩
  · rw [List.nodup_append]
    exact ⟨hs, List.nodup_singleton _, by simpa using hmem⟩
  · exact hs

/-- Along a safe run, pairwise-distinct frozen positions are preserved. -/
theorem nodup_frozen_runSteps (l : List Step) :
    ∀ s : GameState, s.frozen.Nodup → safeRun s l = true →
      (runSteps s l).frozen.Nodup := by
  induction l with
  | nil => intro s hs _; exact hs
  | cons st l ih =>
      intro s hs hsafe
      rw [runSteps_cons]
      unfold safeRun at hsafe
      rw [Bool.and_eq_true] at hsafe
      refine ih _ ?_ hsafe.2
      cases st with
      | fall => simpa [applyStep] using hs
      | control k => simpa [applyStep] using hs
      | place =>
          have hmem : s.active ∉ s.frozen := by simpa using hsafe.1
          exact nodup_frozen_place s hs hmem

/-- Claim C6, amended: no two frozen cells have equal positions in any
state reached by a run whose placement checks all fire while the active
cell does not already overlap a frozen cell; without that proviso the
claim fails, because neither `control_movement` nor
`place_active_blocks` guards against the overlap. -/
theorem frozen_nodup_of_safe (l : List Step)
    (h : safeRun initState l = true) :
    (runSteps initState l).frozen.Nodup :=
  nodup_frozen_runSteps l initState List.nodup_nil h

set_option maxRecDepth 4000 in
/-- Witness for the amended C6: a single straight drop is a safe run
and ends with the one frozen cell `(5, 0)`. -/
theorem frozen_nodup_of_safe_witness :
    safeRun initState (List.replicate 15 Step.fall ++ [Step.place]) = true ∧
    (runSteps initState (List.replicate 15 Step.fall ++ [Step.place])).frozen.Nodup :=
  ⟨by decide, frozen_nodup_of_safe _ (by decide)⟩

/-- Trace that drops twice without interleaving placement checks into
the second descent: the second active cell falls all the way onto the
floor cell already frozen at `(5, 0)` before its first placement check
runs, which then spawns a second frozen cell at `(5, 0)`. -/
def dupTrace : List Step :=
  List.replicate 15 Step.fall ++ [Step.place] ++
    List.replicate 15 Step.fall ++ [Step.place]

set_option maxRecDepth 8000 in
/-- Counterexample to claim C6 as stated: a state reachable by fall
ticks and placement checks alone in which two frozen cells share the
position `(5, 0)`. -/
theorem frozen_positions_can_collide :
    Reachable (runSteps initState dupTrace) ∧
    ¬ (runSteps initState dupTrace).frozen.Nodup :=
  ⟨⟨dupTrace, rfl⟩, by decide⟩

/-- Claim C9: for window extent `W` (resp. `H`) and nonzero grid extent
`Gw` (resp. `Gh`), `convert` computes
`pos / gridExtent * windowExtent - windowExtent / 2 + tileSize / 2`
with `tileSize = windowExtent / gridExtent`; logical coordinate `0`
lands at `-W/2 + W/(2*Gw)` and coordinate `Gw - 1` lands at
`W/2 - W/(2*Gw)`, and likewise on the vertical axis. -/
theorem convert_corners (W H Gw Gh : ℚ) (hw : Gw ≠ 0) (hh : Gh ≠ 0) :
    (∀ pos : ℚ, convert pos W Gw = pos / Gw * W - W / 2 + (W / Gw) / 2) ∧
    convert 0 W Gw = -(W / 2) + W / (2 * Gw) ∧
    convert 0 H Gh = -(H / 2) + H / (2 * Gh) ∧
    convert (Gw - 1) W Gw = W / 2 - W / (2 * Gw) ∧
    convert (Gh - 1) H Gh = H / 2 - H / (2 * Gh) := by
  refine ⟨fun pos => rfl, ?_, ?_, ?_, ?_⟩ <;>
  · unfold convert
    field_simp
    ring

/-- Witness for C9: the startup window of the source, `250 × 500`
pixels for the `8 × 16` grid. -/
theorem convert_corners_witness :
    (8 : ℚ) ≠ 0 ∧ (16 : ℚ) ≠ 0 ∧
    convert 0 250 8 = -(250 / 2) + 250 / (2 * 8) ∧
    convert (8 - 1) 250 8 = 250 / 2 - 250 / (2 * 8) ∧
    convert (16 - 1) 500 16 = 500 / 2 - 500 / (2 * 16) :=
  ⟨by decide, by decide,
   (convert_corners 250 500 8 16 (by decide) (by decide)).2.1,
   (convert_corners 250 500 8 16 (by decide) (by decide)).2.2.2.1,
   (convert_corners 250 500 8 16 (by decide) (by decide)).2.2.2.2⟩

/-- Fifteen rounds of a fall tick followed by a placement check: the
host schedule for a straight drop from the spawn row. -/
def dropTrace : List Step :=
  (List.replicate 15 [Step.fall, Step.place]).flatten

set_option maxRecDepth 8000 in
/-- Claim C10: from the startup state (active cell at `(5, 15)`, no
frozen cells), running fall ticks each followed by a placement check
until the active cell reaches the floor yields exactly one frozen cell,
at `(5, 0)`, and an active cell back at the spawn position
`(5, TOTAL_HEIGHT - 1)`. -/
theorem single_drop_scenario :
    (runSteps initState dropTrace).frozen = [⟨5, 0⟩] ∧
    (runSteps initState dropTrace).active = spawn_active_block := by
  decide
